import Mathlib

/-
  Verification development for the ExoPlex structural-solution engine
  (src/ExoPlex/minphys.py).  The Python functions are shallowly embedded
  over exact rationals: a NaN-capable grid interpolator becomes a
  function into Option (none = NaN / outside the convex hull), a call to
  sys.exit or an uncaught exception becomes a none result, scipy's
  spline fit and odeint become explicit function parameters (the claims
  settled here do not depend on the numerical quadrature, only on the
  surrounding control flow, seeding and post-processing), and numpy
  arrays become lists.
-/

namespace ExoPlex

/-- A (pressure, temperature) -> value interpolation grid; none models a
NaN result (query outside the grid's convex hull). -/
abbrev Grid := ℚ → ℚ → Option ℚ

/-- An odeint-style integrator: derivative function, initial value, list
of evaluation points, result values at those points. -/
abbrev OdeFn := (ℚ → ℚ → ℚ) → ℚ → List ℚ → List ℚ

/-- A spline-fit constructor: sample xs, sample ys, spline degree k,
giving an interpolating function.  Modelled as an arbitrary function
parameter, since no claim depends on the spline values. -/
abbrev SplineFn := List ℚ → List ℚ → ℕ → ℚ → ℚ

/-- scipy.integrate.odeint contract used by the embedding: the output has
one row per evaluation point and its first row is exactly the initial
condition. -/
def OdeContract (ode : OdeFn) : Prop :=
  ∀ f y0 xs, (ode f y0 xs).length = xs.length ∧
    (xs ≠ [] → (ode f y0 xs).head? = some y0)

/-- minphys.py line 9: gravitational constant. -/
def Gconst : ℚ := 6.67408e-11

/-- Look a point up in a primary grid, retrying in a secondary grid when
the primary returns NaN (minphys.py, the retry loops of get_rho). -/
def lookupFallback (g1 g2 : Grid) (P T : ℚ) : Option ℚ :=
  match g1 P T with
  | some v => some v
  | none => g2 P T

/-- Per-point Option-valued map over a list; none as soon as one point
fails.  This is the elementwise reading of the batch lookup loops. -/
def mapOpt (f : ℚ × ℚ → Option ℚ) : List (ℚ × ℚ) → Option (List ℚ)
  | [] => some []
  | pt :: pts =>
    match f pt with
    | none => none
    | some v => (mapOpt f pts).map (fun l => v :: l)

/-- The collect-NaN-indices-and-retry loops of get_rho (minphys.py lines
80-130) and get_core_rho (lines 172-191): every NaN entry of the batch
result is retried at its own (P, T) point in the fallback grid g2; a
retry that is itself NaN aborts the run (sys.exit), otherwise the
retried value replaces the NaN entry. -/
def patchNaN (g2 : Grid) : List (Option ℚ) → List (ℚ × ℚ) → Option (List ℚ)
  | [], _ => some []
  | some v :: rest, pts => (patchNaN g2 rest pts.tail).map (fun l => v :: l)
  | none :: _, [] => none
  | none :: rest, pt :: pts =>
    match g2 pt.1 pt.2 with
    | none => none
    | some w => (patchNaN g2 rest pts).map (fun l => w :: l)

/-- Mantle-layer classification of get_rho (minphys.py line 59): pressure
at least 1250000 bar goes to the lower-mantle grid. -/
def isLM (pt : ℚ × ℚ) : Bool := decide (1250000 ≤ pt.1)

/-- The mantle part of get_rho (minphys.py lines 53-132): classify each
mantle layer as lower or upper mantle by the 1250000 bar threshold,
batch-look both classes up in their own grid, retry NaN entries in the
other grid (fatal if still NaN), and append the patched lower-mantle
data before the patched upper-mantle data. -/
def mantleRho (gUM gLM : Grid) (Ps Ts : List ℚ) : Option (List ℚ) :=
  match patchNaN gLM
      (((Ps.zip Ts).filter (fun pt => !isLM pt)).map (fun pt => gUM pt.1 pt.2))
      ((Ps.zip Ts).filter (fun pt => !isLM pt)) with
  | none => none
  | some um =>
    match patchNaN gUM
        (((Ps.zip Ts).filter isLM).map (fun pt => gLM pt.1 pt.2))
        ((Ps.zip Ts).filter isLM) with
    | none => none
    | some lm => some (lm ++ um)

/-- Core composition in weight percent (minphys.py get_core_rho). -/
structure CoreWtPer where
  Fe : ℚ
  Si : ℚ
  O : ℚ
  S : ℚ

/-- Effective molar weight of the core (minphys.py lines 148-164). -/
def molar_weight_core (cw : CoreWtPer) : ℚ :=
  let mFe : ℚ := 55.845
  let mSi : ℚ := 28.0867
  let mO : ℚ := 15.9994
  let mS : ℚ := 32.0650
  let mol_total := ((cw.Fe / mFe) + (cw.O / mO) + (cw.S / mS) + (cw.Si / mSi)) / 100
  let mol_frac_Fe := (cw.Fe / mFe / 100) / mol_total
  let mol_frac_Si := (cw.Si / mSi / 100) / mol_total
  let mol_frac_S := (cw.S / mS / 100) / mol_total
  let mol_frac_O := (cw.O / mO / 100) / mol_total
  mol_frac_Fe * mFe + mol_frac_Si * mSi + mol_frac_O * mO + mol_frac_S * mS

/-- get_core_rho (minphys.py lines 147-195).  The core grid is queried at
(P, T) in bar; NaN entries are replaced by the analytic liquid-iron EOS
evaluated at (P * 1e5 Pa, T) (a failing EOS evaluation kills the run);
finally every entry is scaled by molar_weight_core / mFe. -/
def get_core_rho (grid liquid_iron : Grid) (cw : CoreWtPer)
    (Ps Ts : List ℚ) : Option (List ℚ) :=
  match patchNaN (fun p t => liquid_iron (p * 100000) t)
      ((Ps.zip Ts).map (fun pt => grid pt.1 pt.2)) (Ps.zip Ts) with
  | none => none
  | some patched =>
    some (patched.map (fun v => molar_weight_core cw / 55.845 * v))

/-- One backward monotonicity-repair sweep over a band (minphys.py lines
135-138 and 237-240).  The argument of the recursion is the number of
indices still to process; aux k processes indices k-1 down to 0.  At
index k the source reads rho[k+5] and P[k+5] when the fix triggers; an
out-of-range read (numpy IndexError) is modelled as none. -/
def densityFixAux (P : List ℚ) : ℕ → List ℚ → Option (List ℚ)
  | 0, rho => some rho
  | k + 1, rho =>
    if rho.getD k 0 < rho.getD (k + 1) 0 then
      if k + 5 < rho.length ∧ k + 5 < P.length then
        let slope := (rho.getD (k + 1) 0 - rho.getD (k + 5) 0) /
          (P.getD (k + 1) 0 - P.getD (k + 5) 0)
        densityFixAux P k
          (rho.set k (rho.getD (k + 1) 0 + (P.getD k 0 - P.getD (k + 1) 0) * slope))
      else none
    else densityFixAux P k rho

/-- The full backward sweep: for i in range(len(rho)-1)[::-1]. -/
def densityMonoFix (rho P : List ℚ) : Option (List ℚ) :=
  densityFixAux P (rho.length - 1) rho

/-- One backward expansivity-jump repair sweep of get_temperature
(minphys.py lines 731-735, 748-752 with factor 2 and lines 781-785 with
factor 3), structured exactly like the density sweep. -/
def alphaFixAux (factor : ℚ) (depths : List ℚ) : ℕ → List ℚ → Option (List ℚ)
  | 0, a => some a
  | k + 1, a =>
    if factor * a.getD (k + 1) 0 < a.getD k 0 then
      if k + 5 < a.length ∧ k + 5 < depths.length then
        let slope := (a.getD (k + 1) 0 - a.getD (k + 5) 0) /
          (depths.getD (k + 1) 0 - depths.getD (k + 5) 0)
        alphaFixAux factor depths k
          (a.set k (a.getD (k + 1) 0 + (depths.getD k 0 - depths.getD (k + 1) 0) * slope))
      else none
    else alphaFixAux factor depths k a

/-- The full expansivity-jump sweep over a band. -/
def alphaJumpFix (factor : ℚ) (alpha depths : List ℚ) : Option (List ℚ) :=
  alphaFixAux factor depths (alpha.length - 1) alpha

/-- Per-layer water density resolution of get_water_rho (minphys.py lines
219-235): a defined grid value is kept; a NaN at P >= 1 bar and
T >= 300 K falls back to the Ice VII EOS at (P * 1e5 Pa, 300 K) divided
by the thermal correction expQ((T - 300) * 11.58e-5); any other NaN is
fatal (sys.exit).  expQ is the exponential, kept as a parameter. -/
def waterRhoPoint (gridW iceVII : Grid) (expQ : ℚ → ℚ) (P T : ℚ) : Option ℚ :=
  match gridW P T with
  | some v => some v
  | none =>
    if 1 ≤ P ∧ 300 ≤ T then
      (iceVII (P * 100000) 300).map (fun d => d / expQ ((T - 300) * 11.58e-5))
    else none

/-- The NaN-patching phase of get_water_rho, before the monotonicity
sweep. -/
def waterRhoPatch (Ps Ts : List ℚ) (gridW iceVII : Grid)
    (expQ : ℚ → ℚ) : Option (List ℚ) :=
  mapOpt (fun pt => waterRhoPoint gridW iceVII expQ pt.1 pt.2) (Ps.zip Ts)

/-- get_water_rho (minphys.py lines 197-242): grid lookup with Ice VII
fallback, then the backward monotonicity sweep against the water-band
pressures. -/
def get_water_rho (Ps Ts : List ℚ) (gridW iceVII : Grid)
    (expQ : ℚ → ℚ) : Option (List ℚ) :=
  match waterRhoPatch Ps Ts gridW iceVII expQ with
  | none => none
  | some wd => densityMonoFix wd Ps

/-- get_rho (minphys.py lines 11-145): water band (when present), core
band and mantle band are resolved separately; the mantle band gets the
backward monotonicity sweep against the mantle pressure slice; the
result is core ++ mantle ++ water. -/
def get_rho (gUM gLM gCore gWater liquid_iron iceVII : Grid) (expQ : ℚ → ℚ)
    (cw : CoreWtPer) (pressure temperature : List ℚ)
    (nM nC nW : ℕ) : Option (List ℚ) :=
  match (if 0 < nW then
      get_water_rho (pressure.drop (nC + nM)) (temperature.drop (nC + nM))
        gWater iceVII expQ
    else some []) with
  | none => none
  | some water_rho =>
    match get_core_rho gCore liquid_iron cw (pressure.take nC) (temperature.take nC) with
    | none => none
    | some core_data =>
      match mantleRho gUM gLM ((pressure.drop nC).take nM)
          ((temperature.drop nC).take nM) with
      | none => none
      | some mantle0 =>
        match densityMonoFix mantle0 ((pressure.drop nC).take nM) with
        | none => none
        | some mantle_data => some (core_data ++ mantle_data ++ water_rho)

/-- The band-integration part of get_gravity (minphys.py lines 331-351
and 360-375): per band, fit density against radius and integrate the
Poisson integrand 4*pi*G*rho(x)*x^2 from the previous band's top value
(0 at the center), reading that top value with a python [-1] access
(IndexError on an empty band result is none); concatenate the bands. -/
def gravityRaw (ode : OdeFn) (splineFit : SplineFn) (piQ : ℚ)
    (radii density : List ℚ) (nM nC nW : ℕ) : Option (List ℚ) :=
  if 0 < nW then
      let radii_core := radii.take nC
      let density_core := density.take nC
      let rhofc := splineFit radii_core density_core 3
      let g_core := ode (fun _ x => 4 * piQ * Gconst * rhofc x * x * x) 0 radii_core
      match g_core.getLast? with
      | none => none
      | some gc =>
        let radii_rock := (radii.drop nC).take nM
        let density_rock := (density.drop nC).take nM
        let rhofr := splineFit radii_rock density_rock 3
        let g_rock := ode (fun _ x => 4 * piQ * Gconst * rhofr x * x * x) gc radii_rock
        match g_rock.getLast? with
        | none => none
        | some gr =>
          let radii_water := radii.drop (nC + nM)
          let density_water := density.drop (nC + nM)
          let rhofw := splineFit radii_water density_water 3
          let g_water := ode (fun _ x => 4 * piQ * Gconst * rhofw x * x * x) gr radii_water
          some (g_core ++ g_rock ++ g_water)
    else
      let radii_core := radii.take nC
      let density_core := density.take nC
      let rhofc := splineFit radii_core density_core 4
      let g_core := ode (fun _ x => 4 * piQ * Gconst * rhofc x * x * x) 0 radii_core
      match g_core.getLast? with
      | none => none
      | some gc =>
        let radii_rock := (radii.drop nC).take nM
        let density_rock := (density.drop nC).take nM
        let rhofr := splineFit radii_rock density_rock 4
        let g_rock := ode (fun _ x => 4 * piQ * Gconst * rhofr x * x * x) gc radii_rock
        some (g_core ++ g_rock)

/-- The shared tail of get_gravity (minphys.py lines 353-354 and
377-378): divide every entry but the first by radius squared (a numpy
broadcast over g[1:] and radii[1:], which raises on a length mismatch)
and force entry 0 to exactly 0 (IndexError on an empty profile). -/
def gravityPost (g radii : List ℚ) : Option (List ℚ) :=
  if g.length = radii.length then
    match g, radii with
    | _ :: gs, _ :: rs =>
      some (0 :: (gs.zip rs).map (fun p => p.1 / p.2 / p.2))
    | _, _ => none
  else none

/-- get_gravity (minphys.py lines 310-380): band integration followed by
the division and center-zero post-processing. -/
def get_gravity (ode : OdeFn) (splineFit : SplineFn) (piQ : ℚ)
    (radii density : List ℚ) (nM nC nW : ℕ) : Option (List ℚ) :=
  match gravityRaw ode splineFit piQ radii density nM nC nW with
  | none => none
  | some g => gravityPost g radii

/-- get_pressure (minphys.py lines 385-468): work in depth coordinates,
integrate rho*g from the surface inward with initial pressure 1e5 Pa,
band by band (water, then mantle seeded with the water band's bottom
pressure, then core seeded with the mantle band's bottom pressure),
convert to bar and return reversed (center to surface).  Empty bands
would make the scipy spline constructor raise, hence none. -/
def get_pressure (ode : OdeFn) (splineFit : SplineFn)
    (radii density gravity : List ℚ) (nM nC nW : ℕ) : Option (List ℚ) :=
  match radii.getLast? with
  | none => none
  | some rsurf =>
    let depths := radii.map (fun r => rsurf - r)
    let depths_mant := (depths.drop nC).take nM
    let gravity_mant := (gravity.drop nC).take nM
    let density_mant := (density.drop nC).take nM
    let depths_core := depths.take nC
    let gravity_core := gravity.take nC
    let density_core := density.take nC
    if 0 < nW then
      let depths_water := depths.drop (nC + nM)
      let gravity_water := gravity.drop (nC + nM)
      let density_water := density.drop (nC + nM)
      if depths_water = [] ∨ depths_mant = [] ∨ depths_core = [] then none else
      let rhofw := splineFit depths_water.reverse density_water.reverse 4
      let gfw := splineFit depths_water.reverse gravity_water.reverse 4
      let pressure_water := ode (fun _ x => gfw x * rhofw x) 100000 depths_water.reverse
      match pressure_water.getLast? with
      | none => none
      | some wmb =>
        let rhofm := splineFit depths_mant.reverse density_mant.reverse 3
        let gfm := splineFit depths_mant.reverse gravity_mant.reverse 3
        let pressure_mant := ode (fun _ x => gfm x * rhofm x) wmb depths_mant.reverse
        match pressure_mant.getLast? with
        | none => none
        | some mcb =>
          let rhofc := splineFit depths_core.reverse density_core.reverse 5
          let gfc := splineFit depths_core.reverse gravity_core.reverse 5
          let pressure_core := ode (fun _ x => gfc x * rhofc x) mcb depths_core.reverse
          some (((pressure_water ++ pressure_mant ++ pressure_core).map
            (fun p => p * (1 / 100000))).reverse)
    else
      if depths_mant = [] ∨ depths_core = [] then none else
      let rhofm := splineFit depths_mant.reverse density_mant.reverse 4
      let gfm := splineFit depths_mant.reverse gravity_mant.reverse 4
      let pressure_mant := ode (fun _ x => gfm x * rhofm x) 100000 depths_mant.reverse
      match pressure_mant.getLast? with
      | none => none
      | some mcb =>
        let rhofc := splineFit depths_core.reverse density_core.reverse 4
        let gfc := splineFit depths_core.reverse gravity_core.reverse 4
        let pressure_core := ode (fun _ x => gfc x * rhofc x) mcb depths_core.reverse
        some (((pressure_mant ++ pressure_core).map
          (fun p => p * (1 / 100000))).reverse)

/-- Per-band cube recurrence of get_radius for layers after the band's
first computed one: each step adds dM*val over the average of the
current and previous densities.  The source stores r = cbrt(c) and only
ever reads pow(r, 3) = c back, so the embedding tracks the cubes; the
map c -> cbrt(c) is a bijection on the reals, so nothing is lost. -/
def cubesFrom (dMval : ℚ) : ℚ → ℚ → List ℚ → List ℚ
  | _, _, [] => []
  | prev, prevDen, d :: rest =>
    let c := prev + dMval / ((d + prevDen) / 2)
    c :: cubesFrom dMval c d rest

/-- A band whose first layer sits on top of another band: the first
computed layer divides by its own density alone (minphys.py lines
502-503 and 511-512), the rest use the average. -/
def bandCubes (dMval prev : ℚ) : List ℚ → List ℚ
  | [] => []
  | d :: rest =>
    let c := prev + dMval / d
    c :: cubesFrom dMval c d rest

/-- get_radius (minphys.py lines 471-518), in cube space.  radius[0]
stays at the initial 0 (the center); the core recurrence runs from index
1 and always averages; the mantle and water bands start from the
previous band's last cube and their first layer divides by its own
density alone.  A zero core or mantle layer count is a Python
ZeroDivisionError, a density list shorter than the layer total an
IndexError; both are none. -/
def get_radius_cubed (piQ Mass wtW cmf : ℚ) (density : List ℚ)
    (nM nC nW : ℕ) : Option (List ℚ) :=
  if nC = 0 ∨ nM = 0 then none else
  if density.length < nC + nM + nW then none else
  let v := 1 / (4 * piQ / 3)
  let mCore := Mass * (1 - wtW) * cmf / nC
  let mMant := Mass * (1 - wtW) * (1 - cmf) / nM
  let dCore := density.take nC
  let coreC := 0 :: cubesFrom (mCore * v) 0 (dCore.headD 0) dCore.tail
  let dMant := (density.drop nC).take nM
  let mantC := bandCubes (mMant * v) (coreC.getD (nC - 1) 0) dMant
  let watC :=
    if 0 < nW then
      let mW := Mass * wtW / nW
      bandCubes (mW * v) ((coreC ++ mantC).getD (nC + nM - 1) 0)
        ((density.drop (nC + nM)).take nW)
    else []
  some (coreC ++ mantC ++ watC)

/-- Modelled from claim C9's words (not from the source): every band,
including the core, accumulates cubes from its inner boundary and its
first layer divides by its own density alone.  Used only to compare the
claim against get_radius_cubed. -/
def radiusCubedClaim (piQ Mass wtW cmf : ℚ) (density : List ℚ)
    (nM nC nW : ℕ) : Option (List ℚ) :=
  if nC = 0 ∨ nM = 0 then none else
  if density.length < nC + nM + nW then none else
  let v := 1 / (4 * piQ / 3)
  let mCore := Mass * (1 - wtW) * cmf / nC
  let mMant := Mass * (1 - wtW) * (1 - cmf) / nM
  let coreC := bandCubes (mCore * v) 0 (density.take nC)
  let dMant := (density.drop nC).take nM
  let mantC := bandCubes (mMant * v) (coreC.getD (nC - 1) 0) dMant
  let watC :=
    if 0 < nW then
      let mW := Mass * wtW / nW
      bandCubes (mW * v) ((coreC ++ mantC).getD (nC + nM - 1) 0)
        ((density.drop (nC + nM)).take nW)
    else []
  some (coreC ++ mantC ++ watC)

/-- The empirical seed gradient of get_temperature (minphys.py line 760),
with the boundary pressure already converted to GPa. -/
def startingGradFormula (wmb : ℚ) : ℚ :=
  0.0041453 + 0.00221 * wmb + (-6.6523e-6) * wmb ^ 2

/-- The core alpha/cp liquid-iron patch of get_temperature (minphys.py
lines 796-816): a layer whose alpha or cp lookup is NaN gets both values
from the liquid-iron EOS at (P * 1e5 Pa, T), cp scaled by 1000/55.845; a
failing EOS call kills the run. -/
def patchCoreVals (liqFeTemp : ℚ → ℚ → Option (ℚ × ℚ)) :
    List (ℚ × ℚ) → List (Option ℚ) → List (Option ℚ) → Option (List ℚ × List ℚ)
  | _, [], [] => some ([], [])
  | pt :: pts, oa :: oas, oc :: ocs =>
    (match oa, oc with
    | some a, some c =>
      (patchCoreVals liqFeTemp pts oas ocs).map (fun r => (a :: r.1, c :: r.2))
    | _, _ =>
      match liqFeTemp (pt.1 * 100000) pt.2 with
      | none => none
      | some ac =>
        (patchCoreVals liqFeTemp pts oas ocs).map
          (fun r => (ac.1 :: r.1, ac.2 * (1000 / 55.845) :: r.2)))
  | _, _, _ => none

/-- get_temperature (minphys.py lines 661-830).  get_mantle_values_T, the
water Cp/alpha formulas and the spline fits are function parameters (the
claims settled here concern the branch structure, sweeps and ODE
seeding, not those values); undefined core grid entries that the water
branch feeds to the spline unchecked enter the abstract spline fit as a
default value.  With a water band the mantle adiabat integration is
seeded with startingGradFormula at the water-mantle boundary pressure;
without one it is seeded with 0. -/
def get_temperature (ode : OdeFn) (splineFit : SplineFn) (expQ : ℚ → ℚ)
    (mantleVals : List ℚ → List ℚ → Option (List ℚ × List ℚ))
    (coreAlphaG coreCpG : Grid) (liqFeTemp : ℚ → ℚ → Option (ℚ × ℚ))
    (waterCpFn waterAlphaFn : List ℚ → List ℚ → List ℚ)
    (radii gravity temperature pressure : List ℚ)
    (mantle_pot water_pot : ℚ) (nM nC nW : ℕ) : Option (List ℚ) :=
  let P_core := pressure.take nC
  let T_core := temperature.take nC
  let core_alpha := (P_core.zip T_core).map (fun pt => coreAlphaG pt.1 pt.2)
  let core_cp := (P_core.zip T_core).map (fun pt => coreCpG pt.1 pt.2)
  match radii.getLast? with
  | none => none
  | some rsurf =>
    let depths := radii.map (fun r => rsurf - r)
    let depths_mantle := (depths.drop nC).take nM
    let gravity_mantle := (gravity.drop nC).take nM
    match mantleVals pressure temperature with
    | none => none
    | some am =>
      let alpha_mant0 := am.1
      let spec_heat_mantle := am.2
      let depths_core := depths.take nC
      let gravity_core := gravity.take nC
      if 0 < nW then
        let P_water := pressure.drop (nC + nM)
        let T_water := temperature.drop (nC + nM)
        let depths_water := depths.drop (nC + nM)
        let gravity_water := gravity.drop (nC + nM)
        let spec_heat_water := waterCpFn P_water T_water
        match alphaJumpFix 2 (waterAlphaFn P_water T_water) depths_water with
        | none => none
        | some alpha_water =>
          if depths_water = [] ∨ depths_mantle = [] ∨ depths_core = [] then none else
          let gfw := splineFit depths_water.reverse gravity_water.reverse 3
          let cpfw := splineFit depths_water.reverse spec_heat_water.reverse 3
          let afw := splineFit depths_water.reverse alpha_water.reverse 3
          let gradient_water := ode (fun _ x => afw x * gfw x / cpfw x) 0 depths_water.reverse
          let temperatures_water := (gradient_water.map (fun i => expQ i * water_pot)).reverse
          match alphaJumpFix 2 alpha_mant0 depths_mantle with
          | none => none
          | some alpha_mant =>
            let gfm := splineFit depths_mantle.reverse gravity_mantle.reverse 5
            let cpfm := splineFit depths_mantle.reverse spec_heat_mantle.reverse 5
            let afm := splineFit depths_mantle.reverse alpha_mant.reverse 5
            match (pressure.drop (nC + nM)).head? with
            | none => none
            | some pwmb =>
              let starting_grad := startingGradFormula (pwmb / 10 / 1000)
              let gradient_mant :=
                ode (fun _ x => afm x * gfm x / cpfm x) starting_grad depths_mantle.reverse
              let temperatures_mant := (gradient_mant.map (fun i => expQ i * mantle_pot)).reverse
              match temperatures_mant.head? with
              | none => none
              | some tm0 =>
                let gfc := splineFit depths_core.reverse gravity_core.reverse 5
                let cpfc := splineFit depths_core.reverse
                  ((core_cp.map (fun o => o.getD 0)).reverse) 5
                let afc := splineFit depths_core.reverse
                  ((core_alpha.map (fun o => o.getD 0)).reverse) 5
                let gradient_core := ode (fun _ x => afc x * gfc x / cpfc x) 0 depths_core.reverse
                let temperatures_core := (gradient_core.map (fun i => expQ i * tm0)).reverse
                some (temperatures_core ++ temperatures_mant ++ temperatures_water)
      else
        match alphaJumpFix 3 alpha_mant0 depths_mantle with
        | none => none
        | some alpha_mant =>
          if depths_mantle = [] ∨ depths_core = [] then none else
          let gfm := splineFit depths_mantle.reverse gravity_mantle.reverse 4
          let cpfm := splineFit depths_mantle.reverse spec_heat_mantle.reverse 4
          let afm := splineFit depths_mantle.reverse alpha_mant.reverse 4
          let gradient_mant := ode (fun _ x => afm x * gfm x / cpfm x) 0 depths_mantle.reverse
          let temperatures_mant := (gradient_mant.map (fun k => expQ k * mantle_pot)).reverse
          match patchCoreVals liqFeTemp (P_core.zip T_core) core_alpha core_cp with
          | none => none
          | some cv =>
            match temperatures_mant.head? with
            | none => none
            | some tm0 =>
              let gfc := splineFit depths_core.reverse gravity_core.reverse 3
              let cpfc := splineFit depths_core.reverse cv.2.reverse 3
              let afc := splineFit depths_core.reverse cv.1.reverse 3
              let gradient_core := ode (fun _ x => afc x * gfc x / cpfc x) 0 depths_core.reverse
              let temperatures_core := (gradient_core.map (fun k => expQ k * tm0)).reverse
              some (temperatures_core ++ temperatures_mant)

/-- The early-return loop of check_convergence (minphys.py lines
852-856): false on the first relative difference at least 1e-3. -/
def convLoop : List ℚ → Bool
  | [] => true
  | d :: rest => if 1 / 1000 ≤ |d| then false else convLoop rest

/-- check_convergence (minphys.py lines 832-856): relative differences
1 - old/new over indices 1 .. len-1, converged iff all are below 1e-3 in
absolute value; always hands new_rho back. -/
def check_convergence (new_rho old_rho : List ℚ) : Bool × List ℚ :=
  let delta := (List.range' 1 (new_rho.length - 1)).map
    (fun i => 1 - old_rho.getD i 0 / new_rho.getD i 0)
  (convLoop delta, new_rho)

/-! Helper lemmas. -/

lemma getD_set_same (l : List ℚ) (i : ℕ) (v : ℚ) (h : i < l.length) :
    (l.set i v).getD i 0 = v := by
  simp [List.getD_eq_getElem?_getD, List.getElem?_set_self, h]

lemma getD_set_diff (l : List ℚ) (i j : ℕ) (v : ℚ) (h : i ≠ j) :
    (l.set i v).getD j 0 = l.getD j 0 := by
  simp [List.getD_eq_getElem?_getD, List.getElem?_set_ne h]

lemma chain_le (f : ℕ → ℚ) (n m : ℕ)
    (h : ∀ j, m ≤ j → j + 1 < n → f (j + 1) ≤ f j) :
    ∀ a b, m ≤ a → a ≤ b → b < n → f b ≤ f a := by
  intro a b ha hab
  induction b, hab using Nat.le_induction with
  | base => intro _; exact le_refl _
  | succ b hab ih =>
    intro hbn
    exact le_trans (h b (le_trans ha hab) hbn) (ih (by omega))

lemma chain_lt (f : ℕ → ℚ) (n : ℕ)
    (h : ∀ j, j + 1 < n → f (j + 1) < f j) :
    ∀ a b, a < b → b < n → f b < f a := by
  intro a b hab
  induction b, hab using Nat.le_induction with
  | base => intro hbn; exact h a hbn
  | succ b hab ih =>
    intro hbn
    exact lt_trans (h b hbn) (ih (by omega))

lemma convLoop_true_iff (l : List ℚ) : convLoop l = true ↔ ∀ d ∈ l, |d| < 1 / 1000 := by
  induction l with
  | nil => simp [convLoop]
  | cons d rest ih =>
    simp only [convLoop, List.mem_cons]
    by_cases h : 1 / 1000 ≤ |d|
    · rw [if_pos h]
      simp only [Bool.false_eq_true, false_iff]
      intro hall
      exact absurd (hall d (Or.inl rfl)) (not_lt.2 h)
    · rw [if_neg h, ih]
      constructor
      · intro hall x hx
        rcases hx with rfl | hx
        · exact not_le.1 h
        · exact hall x hx
      · intro hall x hx
        exact hall x (Or.inr hx)

lemma densityFixAux_safe (P : List ℚ) :
    ∀ (k : ℕ) (rho out : List ℚ), densityFixAux P k rho = some out →
      ∀ i, i < k → i + 1 < rho.length → rho.length ≤ i + 5 →
        ¬ (rho.getD i 0 < rho.getD (i + 1) 0) := by
  intro k
  induction k with
  | zero => intro rho out _ i hik; omega
  | succ k ih =>
    intro rho out h i hik hi1 hi5
    simp only [densityFixAux] at h
    by_cases hv : rho.getD k 0 < rho.getD (k + 1) 0
    · rw [if_pos hv] at h
      by_cases hr : k + 5 < rho.length ∧ k + 5 < P.length
      · obtain ⟨hr1, _⟩ := hr
        omega
      · rw [if_neg hr] at h
        exact Option.noConfusion h
    · rw [if_neg hv] at h
      rcases Nat.lt_succ_iff_lt_or_eq.1 hik with hik2 | rfl
      · exact ih rho out h i hik2 hi1 hi5
      · exact hv

lemma alphaFixAux_safe (factor : ℚ) (depths : List ℚ) :
    ∀ (k : ℕ) (a out : List ℚ), alphaFixAux factor depths k a = some out →
      ∀ i, i < k → i + 1 < a.length → a.length ≤ i + 5 →
        ¬ (factor * a.getD (i + 1) 0 < a.getD i 0) := by
  intro k
  induction k with
  | zero => intro a out _ i hik; omega
  | succ k ih =>
    intro a out h i hik hi1 hi5
    simp only [alphaFixAux] at h
    by_cases hv : factor * a.getD (k + 1) 0 < a.getD k 0
    · rw [if_pos hv] at h
      by_cases hr : k + 5 < a.length ∧ k + 5 < depths.length
      · obtain ⟨hr1, _⟩ := hr
        omega
      · rw [if_neg hr] at h
        exact Option.noConfusion h
    · rw [if_neg hv] at h
      rcases Nat.lt_succ_iff_lt_or_eq.1 hik with hik2 | rfl
      · exact ih a out h i hik2 hi1 hi5
      · exact hv

lemma densityFixAux_mono (P : List ℚ)
    (hP : ∀ j, j + 1 < P.length → P.getD (j + 1) 0 < P.getD j 0) :
    ∀ (k : ℕ) (rho out : List ℚ), rho.length = P.length →
      (∀ j, k ≤ j → j + 1 < rho.length → rho.getD (j + 1) 0 ≤ rho.getD j 0) →
      densityFixAux P k rho = some out →
      ∀ j, j + 1 < out.length → out.getD (j + 1) 0 ≤ out.getD j 0 := by
  intro k
  induction k with
  | zero =>
    intro rho out _ hsuf h
    simp only [densityFixAux] at h
    cases h
    exact fun j hj => hsuf j (Nat.zero_le j) hj
  | succ k ih =>
    intro rho out hlen hsuf h
    simp only [densityFixAux] at h
    by_cases hv : rho.getD k 0 < rho.getD (k + 1) 0
    · rw [if_pos hv] at h
      by_cases hr : k + 5 < rho.length ∧ k + 5 < P.length
      · rw [if_pos hr] at h
        obtain ⟨hr1, hr5⟩ := hr
        refine ih (rho.set k (rho.getD (k + 1) 0 +
          (P.getD k 0 - P.getD (k + 1) 0) *
            ((rho.getD (k + 1) 0 - rho.getD (k + 5) 0) /
              (P.getD (k + 1) 0 - P.getD (k + 5) 0)))) out ?_ ?_ h
        · rw [List.length_set]; exact hlen
        · intro j hkj hj1
          rw [List.length_set] at hj1
          rcases Nat.eq_or_lt_of_le hkj with rfl | hkj2
          · rw [getD_set_diff _ _ _ _ (by omega), getD_set_same _ _ _ (by omega)]
            have hPk : P.getD (k + 1) 0 < P.getD k 0 := hP k (by omega)
            have hP5 : P.getD (k + 5) 0 < P.getD (k + 1) 0 :=
              chain_lt (fun i => P.getD i 0) P.length hP (k + 1) (k + 5)
                (by omega) (by omega)
            have hrho5 : rho.getD (k + 5) 0 ≤ rho.getD (k + 1) 0 :=
              chain_le (fun i => rho.getD i 0) rho.length (k + 1)
                (fun j hj hj1 => hsuf j hj hj1) (k + 1) (k + 5) (le_refl _)
                (by omega) hr1
            have hnn : 0 ≤ (P.getD k 0 - P.getD (k + 1) 0) *
                ((rho.getD (k + 1) 0 - rho.getD (k + 5) 0) /
                  (P.getD (k + 1) 0 - P.getD (k + 5) 0)) :=
              mul_nonneg (by linarith) (div_nonneg (by linarith) (by linarith))
            linarith
          · rw [getD_set_diff _ _ _ _ (by omega), getD_set_diff _ _ _ _ (by omega)]
            exact hsuf j (by omega) hj1
      · rw [if_neg hr] at h
        exact Option.noConfusion h
    · rw [if_neg hv] at h
      refine ih rho out hlen ?_ h
      intro j hkj hj1
      rcases Nat.eq_or_lt_of_le hkj with rfl | hkj2
      · exact le_of_not_lt hv
      · exact hsuf j (by omega) hj1

/-! Claim theorems. -/

/-- C1: for equal-length non-empty density lists, check_convergence
returns (true, new_rho) if and only if every layer but the innermost has
relative difference |1 - old/new| below 1e-3, and it always returns
new_rho as its second component (hence (false, new_rho) otherwise). -/
theorem c1_check_convergence_iff (new_rho old_rho : List ℚ)
    (hlen : new_rho.length = old_rho.length) (hne : 0 < new_rho.length) :
    ((check_convergence new_rho old_rho).1 = true ↔
      ∀ i, 1 ≤ i → i < new_rho.length →
        |1 - old_rho.getD i 0 / new_rho.getD i 0| < 1 / 1000) ∧
    (check_convergence new_rho old_rho).2 = new_rho := by
  refine ⟨?_, rfl⟩
  show convLoop ((List.range' 1 (new_rho.length - 1)).map
    (fun i => 1 - old_rho.getD i 0 / new_rho.getD i 0)) = true ↔ _
  rw [convLoop_true_iff]
  constructor
  · intro hall i h1 hi
    exact hall _ (List.mem_map.2 ⟨i, List.mem_range'_1.2 ⟨h1, by omega⟩, rfl⟩)
  · intro hall d hd
    rcases List.mem_map.1 hd with ⟨i, hi, rfl⟩
    rcases List.mem_range'_1.1 hi with ⟨h1, h2⟩
    exact hall i h1 (by omega)

theorem c1_witness :
    (check_convergence [1, 1] [1, 1]).1 = true ∧
    (check_convergence [1, 1] [1, 1]).2 = [1, 1] := by
  have h := c1_check_convergence_iff [1, 1] [1, 1] rfl (by norm_num)
  refine ⟨h.1.mpr ?_, h.2⟩
  intro i h1 h2
  have hi : i = 1 := by simp at h2; omega
  subst hi
  norm_num

/-- C2 counterexample: a water-band profile on which get_water_rho
returns, whose repaired density profile still increases with layer
index; the claim that the returned profile is always non-increasing is
false.  The band pressures here are not monotone, so the repair's
extrapolation slope has the wrong sign and leaves layer 0 below
layer 1. -/
def gridCE : Grid := fun p _ =>
  some (if p = 3 then 1 else if p = 2 then 10 else if p = 10 then 9
    else if p = 11 then 8 else if p = 12 then 7 else 6)

theorem c2_counterexample :
    get_water_rho [3, 2, 10, 11, 12, 6] [400, 400, 400, 400, 400, 400] gridCE
        (fun _ _ => none) (fun _ => 1) = some [9, 10, 9, 8, 7, 6] ∧
    ([9, 10, 9, 8, 7, 6] : List ℚ).getD 0 0 < ([9, 10, 9, 8, 7, 6] : List ℚ).getD 1 0 := by
  constructor
  · norm_num [get_water_rho, waterRhoPatch, mapOpt, waterRhoPoint, gridCE,
      densityMonoFix, densityFixAux]
  · norm_num

/-- C2 (amended): the backward repair sweep shared by get_rho's mantle
band and get_water_rho's water band leaves the band non-increasing with
layer index provided the band's pressures are strictly decreasing with
layer index (as they are for a hydrostatic center-to-surface profile);
without that precondition the sweep can leave an increase. -/
theorem c2_repaired_band_nonincreasing (rho P out : List ℚ)
    (hlen : rho.length = P.length)
    (hP : ∀ j, j + 1 < P.length → P.getD (j + 1) 0 < P.getD j 0)
    (h : densityMonoFix rho P = some out) :
    ∀ j, j + 1 < out.length → out.getD (j + 1) 0 ≤ out.getD j 0 := by
  refine densityFixAux_mono P hP (rho.length - 1) rho out hlen ?_ h
  intro j hj hj1
  omega

theorem c2_witness :
    ([2, 1] : List ℚ).getD 1 0 ≤ ([2, 1] : List ℚ).getD 0 0 :=
  c2_repaired_band_nonincreasing [2, 1] [5, 4] [2, 1] (by decide)
    (by intro j hj
        have hj0 : j = 0 := by simp at hj; omega
        subst hj0
        norm_num)
    (by norm_num [densityMonoFix, densityFixAux]) 0 (by decide)

lemma gravityPost_head (g radii out : List ℚ) (h : gravityPost g radii = some out) :
    out.head? = some 0 := by
  unfold gravityPost at h
  by_cases hl : g.length = radii.length
  · rw [if_pos hl] at h
    match g, radii, h with
    | _ :: gs, _ :: rs, h =>
      cases h
      rfl
  · rw [if_neg hl] at h
    exact Option.noConfusion h

/-- C3: whenever get_gravity returns a gravity profile, its innermost
entry (index 0, the planet center) is exactly 0, with or without a water
band. -/
theorem c3_gravity_center_zero (ode : OdeFn) (splineFit : SplineFn) (piQ : ℚ)
    (radii density : List ℚ) (nM nC nW : ℕ) (g : List ℚ)
    (h : get_gravity ode splineFit piQ radii density nM nC nW = some g) :
    g.head? = some 0 := by
  unfold get_gravity at h
  cases hr : gravityRaw ode splineFit piQ radii density nM nC nW with
  | none => rw [hr] at h; exact Option.noConfusion h
  | some raw => rw [hr] at h; exact gravityPost_head raw radii g h

theorem c3_witness :
    get_gravity (fun _ y0 xs => xs.map (fun _ => y0)) (fun _ _ _ _ => 0) 3
        [1, 2] [1, 1] 1 1 0 = some [0, 0] ∧
    ([0, 0] : List ℚ).head? = some 0 :=
  ⟨by norm_num [get_gravity, gravityRaw, gravityPost],
    c3_gravity_center_zero (fun _ y0 xs => xs.map (fun _ => y0)) (fun _ _ _ _ => 0) 3
      [1, 2] [1, 1] 1 1 0 [0, 0]
      (by norm_num [get_gravity, gravityRaw, gravityPost])⟩

/-- C10: the repair sweeps read index i+5 to fix a violation detected at
index i, so a sweep only returns (rather than dying on an out-of-range
read) if no violation is detected at any of the outermost positions
whose i+5 lies past the band's last entry; this covers the density
sweeps of get_rho and get_water_rho and the expansivity sweeps of
get_temperature. -/
theorem c10_sweep_inrange_precondition :
    (∀ (rho P out : List ℚ), densityMonoFix rho P = some out →
      ∀ i, i + 1 < rho.length → rho.length ≤ i + 5 →
        ¬ (rho.getD i 0 < rho.getD (i + 1) 0)) ∧
    (∀ (factor : ℚ) (alpha depths out : List ℚ),
      alphaJumpFix factor alpha depths = some out →
      ∀ i, i + 1 < alpha.length → alpha.length ≤ i + 5 →
        ¬ (factor * alpha.getD (i + 1) 0 < alpha.getD i 0)) := by
  constructor
  · intro rho P out h i hi1 hi5
    exact densityFixAux_safe P (rho.length - 1) rho out h i (by omega) hi1 hi5
  · intro factor alpha depths out h i hi1 hi5
    exact alphaFixAux_safe factor depths (alpha.length - 1) alpha out h i (by omega) hi1 hi5

theorem c10_witness :
    ¬ (([5, 4, 3, 2, 1, 0] : List ℚ).getD 1 0 < ([5, 4, 3, 2, 1, 0] : List ℚ).getD 2 0) ∧
    ¬ ((2 : ℚ) * ([1, 1, 1, 1, 1, 1] : List ℚ).getD 2 0 <
      ([1, 1, 1, 1, 1, 1] : List ℚ).getD 1 0) :=
  ⟨c10_sweep_inrange_precondition.1 [5, 4, 3, 2, 1, 0] [6, 5, 4, 3, 2, 1]
      [5, 4, 3, 2, 1, 0] (by norm_num [densityMonoFix, densityFixAux]) 1
      (by decide) (by decide),
    c10_sweep_inrange_precondition.2 2 [1, 1, 1, 1, 1, 1] [9, 8, 7, 6, 5, 4]
      [1, 1, 1, 1, 1, 1] (by norm_num [alphaJumpFix, alphaFixAux]) 1
      (by decide) (by decide)⟩

lemma patchNaN_map_eq (g1 g2 : Grid) (pts : List (ℚ × ℚ)) :
    patchNaN g2 (pts.map (fun pt => g1 pt.1 pt.2)) pts =
      mapOpt (fun pt => lookupFallback g1 g2 pt.1 pt.2) pts := by
  induction pts with
  | nil => rfl
  | cons pt pts ih =>
    simp only [List.map_cons]
    cases hg : g1 pt.1 pt.2 with
    | some v =>
      have hF : lookupFallback g1 g2 pt.1 pt.2 = some v := by
        simp only [lookupFallback, hg]
      simp only [patchNaN, mapOpt, List.tail_cons, hF, ih]
    | none =>
      have hF : lookupFallback g1 g2 pt.1 pt.2 = g2 pt.1 pt.2 := by
        simp only [lookupFallback, hg]
      simp only [patchNaN, mapOpt, hF, ih]

lemma mapOpt_map_post (f : ℚ × ℚ → Option ℚ) (s : ℚ → ℚ) (pts : List (ℚ × ℚ)) :
    (mapOpt f pts).map (fun l => l.map s) = mapOpt (fun pt => (f pt).map s) pts := by
  induction pts with
  | nil => rfl
  | cons pt pts ih =>
    cases hf : f pt with
    | none => simp [mapOpt, hf]
    | some v =>
      simp only [mapOpt, hf, Option.map_some']
      rw [← ih]
      cases mapOpt f pts with
      | none => rfl
      | some os => rfl

lemma mapOpt_some_getD (f : ℚ × ℚ → Option ℚ) (l : List (ℚ × ℚ)) (out : List ℚ)
    (h : mapOpt f l = some out) :
    out.length = l.length ∧
      ∀ i, i < l.length → f (l.getD i (0, 0)) = some (out.getD i 0) := by
  induction l generalizing out with
  | nil =>
    cases h
    exact ⟨rfl, fun i hi => absurd hi (Nat.not_lt_zero i)⟩
  | cons pt pts ih =>
    simp only [mapOpt] at h
    cases hf : f pt with
    | none => rw [hf] at h; exact Option.noConfusion h
    | some v =>
      rw [hf] at h
      cases hrest : mapOpt f pts with
      | none => rw [hrest] at h; exact Option.noConfusion h
      | some os =>
        rw [hrest] at h
        cases h
        obtain ⟨hl, hel⟩ := ih os hrest
        refine ⟨by simp [hl], ?_⟩
        intro i hi
        cases i with
        | zero => simpa using hf
        | succ i => simpa using hel i (by simpa using hi)

lemma zip_getD (l1 l2 : List ℚ) (i : ℕ) (h1 : i < l1.length) (h2 : i < l2.length) :
    (l1.zip l2).getD i (0, 0) = (l1.getD i 0, l2.getD i 0) := by
  induction l1 generalizing l2 i with
  | nil => exact absurd h1 (by simp)
  | cons a l1 ih =>
    cases l2 with
    | nil => exact absurd h2 (by simp)
    | cons b l2 =>
      cases i with
      | zero => rfl
      | succ i => simpa using ih l2 i (by simpa using h1) (by simpa using h2)

/-- C4: get_rho's mantle resolution is, layer by layer, the cascade
described by the claim: a layer at pressure at least 1250000 bar is
looked up in the lower-mantle grid with an upper-mantle retry on NaN,
any other layer in the upper-mantle grid with a lower-mantle retry; a
layer failing both is fatal (none); the retried values stand in for the
NaN entries, with the lower-mantle class listed before the upper-mantle
class. -/
theorem c4_mantle_grid_cascade (gUM gLM : Grid) (Ps Ts : List ℚ) :
    mantleRho gUM gLM Ps Ts =
      match
        mapOpt (fun pt => lookupFallback gLM gUM pt.1 pt.2) ((Ps.zip Ts).filter isLM),
        mapOpt (fun pt => lookupFallback gUM gLM pt.1 pt.2)
          ((Ps.zip Ts).filter (fun pt => !isLM pt)) with
      | some lm, some um => some (lm ++ um)
      | _, _ => none := by
  unfold mantleRho
  rw [patchNaN_map_eq gUM gLM, patchNaN_map_eq gLM gUM]
  cases mapOpt (fun pt => lookupFallback gLM gUM pt.1 pt.2) ((Ps.zip Ts).filter isLM) with
  | none =>
    cases mapOpt (fun pt => lookupFallback gUM gLM pt.1 pt.2)
        ((Ps.zip Ts).filter (fun pt => !isLM pt)) with
    | none => rfl
    | some um => rfl
  | some lm =>
    cases mapOpt (fun pt => lookupFallback gUM gLM pt.1 pt.2)
        ((Ps.zip Ts).filter (fun pt => !isLM pt)) with
    | none => rfl
    | some um => rfl

/-- C5: get_core_rho is, layer by layer, the core-grid lookup with the
liquid-iron EOS fallback at (P * 1e5 Pa, T), scaled by
molar_weight_core / 55.845; a layer at which both fail makes the whole
call fatal (none). -/
theorem c5_core_rho_scaled_cascade (grid liquid_iron : Grid) (cw : CoreWtPer)
    (Ps Ts : List ℚ) :
    get_core_rho grid liquid_iron cw Ps Ts =
      mapOpt (fun pt =>
        (lookupFallback grid (fun p t => liquid_iron (p * 100000) t) pt.1 pt.2).map
          (fun v => molar_weight_core cw / 55.845 * v)) (Ps.zip Ts) := by
  unfold get_core_rho
  rw [patchNaN_map_eq]
  rw [← mapOpt_map_post]
  cases mapOpt (fun pt =>
      lookupFallback grid (fun p t => liquid_iron (p * 100000) t) pt.1 pt.2) (Ps.zip Ts) with
  | none => rfl
  | some l => rfl

/-- C6: in get_water_rho's patching phase, a layer whose water-grid
lookup is NaN with P at least 1 bar and T at least 300 K is assigned the
Ice VII density at (P * 1e5 Pa, 300 K) divided by the thermal factor
expQ((T - 300) * 11.58e-5); a NaN layer with P below 1 bar or T below
300 K makes get_water_rho fatal (none). -/
theorem c6_water_fallback (Ps Ts : List ℚ) (gridW iceVII : Grid) (expQ : ℚ → ℚ)
    (i : ℕ) (hlen : Ps.length = Ts.length) (hi : i < Ps.length)
    (hnan : gridW (Ps.getD i 0) (Ts.getD i 0) = none) :
    ((1 ≤ Ps.getD i 0 ∧ 300 ≤ Ts.getD i 0) →
      ∀ wd, waterRhoPatch Ps Ts gridW iceVII expQ = some wd →
        ∃ d, iceVII (Ps.getD i 0 * 100000) 300 = some d ∧
          wd.getD i 0 = d / expQ ((Ts.getD i 0 - 300) * 11.58e-5)) ∧
    (¬ (1 ≤ Ps.getD i 0 ∧ 300 ≤ Ts.getD i 0) →
      get_water_rho Ps Ts gridW iceVII expQ = none) := by
  have hiz : i < (Ps.zip Ts).length := by
    rw [List.length_zip]
    omega
  constructor
  · intro hcond wd hwd
    obtain ⟨_, hel⟩ := mapOpt_some_getD _ _ _ hwd
    have hpt := hel i hiz
    rw [zip_getD Ps Ts i hi (by omega)] at hpt
    unfold waterRhoPoint at hpt
    rw [hnan, if_pos hcond] at hpt
    cases hice : iceVII (Ps.getD i 0 * 100000) 300 with
    | none => rw [hice] at hpt; exact Option.noConfusion hpt
    | some d =>
      rw [hice] at hpt
      simp only [Option.map_some'] at hpt
      exact ⟨d, rfl, (Option.some.inj hpt).symm⟩
  · intro hncond
    cases hwp : waterRhoPatch Ps Ts gridW iceVII expQ with
    | none => simp [get_water_rho, hwp]
    | some wd =>
      exfalso
      obtain ⟨_, hel⟩ := mapOpt_some_getD _ _ _ hwp
      have hpt := hel i hiz
      rw [zip_getD Ps Ts i hi (by omega)] at hpt
      unfold waterRhoPoint at hpt
      rw [hnan, if_neg hncond] at hpt
      exact Option.noConfusion hpt

theorem c6_witness :
    ∃ d : ℚ, some (2000 : ℚ) = some d ∧ (1000 : ℚ) = d / 2 := by
  have h := c6_water_fallback [5] [400] (fun _ _ => none) (fun _ _ => some 2000)
    (fun _ => 2) 0 rfl (by norm_num) rfl
  exact h.1 (by norm_num) [1000] (by norm_num [waterRhoPatch, mapOpt, waterRhoPoint])

/-- C7: get_pressure integrates hydrostatic equilibrium in depth
coordinates from the surface inward, starting at 1e5 Pa, in band order
water, mantle, core, each band seeded with the previous band's bottom
pressure; after the conversion to bar and the reversal to
center-to-surface order, the returned surface (last) entry is exactly
1 bar. -/
theorem c7_surface_pressure_one (ode : OdeFn) (splineFit : SplineFn)
    (radii density gravity : List ℚ) (nM nC nW : ℕ) (ps : List ℚ)
    (hode : OdeContract ode)
    (h : get_pressure ode splineFit radii density gravity nM nC nW = some ps) :
    ps.getLast? = some 1 := by
  have surf3 : ∀ (f : ℚ → ℚ → ℚ) (xs : List ℚ), xs ≠ [] → ∀ (l2 l3 : List ℚ),
      (((ode f 100000 xs ++ l2 ++ l3).map (fun p => p * (1 / 100000))).reverse).getLast? =
        some 1 := by
    intro f xs hxs l2 l3
    have h1 := (hode f 100000 xs).1
    have h2 := (hode f 100000 xs).2 hxs
    have hne : ode f 100000 xs ≠ [] := by
      intro hc
      rw [hc] at h1
      exact hxs (List.eq_nil_of_length_eq_zero h1.symm)
    have hne2 : ode f 100000 xs ++ l2 ≠ [] := by
      intro hc
      exact hne (List.append_eq_nil.1 hc).1
    rw [List.getLast?_reverse, List.head?_map, List.head?_append_of_ne_nil _ hne2,
      List.head?_append_of_ne_nil _ hne, h2]
    norm_num
  have surf2 : ∀ (f : ℚ → ℚ → ℚ) (xs : List ℚ), xs ≠ [] → ∀ (l2 : List ℚ),
      (((ode f 100000 xs ++ l2).map (fun p => p * (1 / 100000))).reverse).getLast? =
        some 1 := by
    intro f xs hxs l2
    have h1 := (hode f 100000 xs).1
    have h2 := (hode f 100000 xs).2 hxs
    have hne : ode f 100000 xs ≠ [] := by
      intro hc
      rw [hc] at h1
      exact hxs (List.eq_nil_of_length_eq_zero h1.symm)
    rw [List.getLast?_reverse, List.head?_map, List.head?_append_of_ne_nil _ hne, h2]
    norm_num
  simp only [get_pressure] at h
  split at h
  · exact Option.noConfusion h
  · split at h
    · -- water branch
      split at h
      · exact Option.noConfusion h
      · split at h
        · exact Option.noConfusion h
        · split at h
          · exact Option.noConfusion h
          · cases h
            rename_i v1 rsurf hrs hnw hne v2 wmb heqw v3 mcb heqm
            apply surf3
            simp only [ne_eq, List.reverse_eq_nil_iff]
            push_neg at hne
            exact hne.1
    · -- no-water branch
      split at h
      · exact Option.noConfusion h
      · split at h
        · exact Option.noConfusion h
        · cases h
          rename_i v1 rsurf hrs hnw hne v2 mcb heqm
          apply surf2
          simp only [ne_eq, List.reverse_eq_nil_iff]
          push_neg at hne
          exact hne.1

theorem c7_witness :
    get_pressure (fun _ y0 xs => xs.map (fun _ => y0)) (fun _ _ _ _ => 0)
        [1, 2] [1, 1] [0, 0] 1 1 0 = some [1, 1] ∧
    ([1, 1] : List ℚ).getLast? = some 1 := by
  have hode : OdeContract (fun _ y0 xs => xs.map (fun _ => y0)) := by
    intro f y0 xs
    refine ⟨by simp, ?_⟩
    intro hxs
    cases xs with
    | nil => exact absurd rfl hxs
    | cons a l => rfl
  refine ⟨?_, ?_⟩
  · norm_num [get_pressure]
  · exact c7_surface_pressure_one (fun _ y0 xs => xs.map (fun _ => y0)) (fun _ _ _ _ => 0)
      [1, 2] [1, 1] [0, 0] 1 1 0 [1, 1] hode (by norm_num [get_pressure])

lemma getD_append_lt (l m : List ℚ) (i : ℕ) (h : i < l.length) :
    (l ++ m).getD i 0 = l.getD i 0 := by
  simp [List.getD_eq_getElem?_getD, List.getElem?_append, h]

lemma getD_append_ge (l m : List ℚ) (i : ℕ) (h : l.length ≤ i) :
    (l ++ m).getD i 0 = m.getD (i - l.length) 0 := by
  simp [List.getD_eq_getElem?_getD, List.getElem?_append_right h]

lemma getD_take_lt (l : List ℚ) (n i : ℕ) (h : i < n) :
    (l.take n).getD i 0 = l.getD i 0 := by
  simp [List.getD_eq_getElem?_getD, List.getElem?_take, h]

lemma getD_drop_add (l : List ℚ) (n i : ℕ) :
    (l.drop n).getD i 0 = l.getD (n + i) 0 := by
  simp [List.getD_eq_getElem?_getD, List.getElem?_drop]

lemma cubesFrom_length (m : ℚ) : ∀ (c d : ℚ) (l : List ℚ),
    (cubesFrom m c d l).length = l.length := by
  intro c d l
  induction l generalizing c d with
  | nil => rfl
  | cons e rest ih => simp [cubesFrom, ih]

lemma bandCubes_length (m p : ℚ) (l : List ℚ) : (bandCubes m p l).length = l.length := by
  cases l with
  | nil => rfl
  | cons d rest => simp [bandCubes, cubesFrom_length]

lemma bandCubes_cons (m p d : ℚ) (rest : List ℚ) :
    bandCubes m p (d :: rest) = (p + m / d) :: cubesFrom m (p + m / d) d rest := rfl

lemma cubes_consec (m : ℚ) : ∀ (c d : ℚ) (rest : List ℚ) (j : ℕ), j + 1 ≤ rest.length →
    (c :: cubesFrom m c d rest).getD (j + 1) 0 =
      (c :: cubesFrom m c d rest).getD j 0 +
        m / (((d :: rest).getD (j + 1) 0 + (d :: rest).getD j 0) / 2) := by
  intro c d rest
  induction rest generalizing c d with
  | nil => intro j hj; simp at hj
  | cons e rest ih =>
    intro j hj
    cases j with
    | zero => simp [cubesFrom]
    | succ j =>
      have h2 : j + 1 ≤ rest.length := by simpa using hj
      have := ih (c + m / ((e + d) / 2)) e j h2
      simpa [cubesFrom] using this

lemma mulInvDiv (a b c : ℚ) : a * (1 / b) / c = a / (b * c) := by
  rw [mul_one_div, div_div]

/-- C9 counterexample: with one core layer and one mantle layer the code
pins the core band's first entry at the center (cube 0), whereas the
claim's recurrence, applied from the core band's inner boundary with the
first layer divided by its own density alone, yields a positive cube;
the two disagree on an explicit input. -/
theorem c9_counterexample :
    get_radius_cubed 3 8 0 (1 / 2) [1, 1] 1 1 0 = some [0, 1] ∧
    radiusCubedClaim 3 8 0 (1 / 2) [1, 1] 1 1 0 = some [1, 2] := by
  constructor
  · norm_num [get_radius_cubed, cubesFrom, bandCubes]
  · norm_num [radiusCubedClaim, cubesFrom, bandCubes]

/-- C9 (amended): get_radius accumulates cubes band by band with
r(i)^3 = r(i-1)^3 + dM / ((4 pi / 3) * rho-average); the mantle and
water bands' first layers divide by their own density alone, while the
core band's first entry is the center itself (cube 0) and its recurrence
runs from the second core layer onward, always with the averaged
density. -/
theorem c9_radius_recurrence (piQ Mass wtW cmf : ℚ) (density : List ℚ) (nM nC nW : ℕ)
    (hC : 0 < nC) (hM : 0 < nM) (hlen : nC + nM + nW ≤ density.length) :
    ∃ cs, get_radius_cubed piQ Mass wtW cmf density nM nC nW = some cs ∧
      cs.length = nC + nM + nW ∧
      cs.getD 0 0 = 0 ∧
      (∀ i, i + 1 < nC →
        cs.getD (i + 1) 0 = cs.getD i 0 +
          (Mass * (1 - wtW) * cmf / nC) /
            ((4 * piQ / 3) * ((density.getD (i + 1) 0 + density.getD i 0) / 2))) ∧
      (cs.getD nC 0 = cs.getD (nC - 1) 0 +
        (Mass * (1 - wtW) * (1 - cmf) / nM) / ((4 * piQ / 3) * density.getD nC 0)) ∧
      (∀ i, nC ≤ i → i + 1 < nC + nM →
        cs.getD (i + 1) 0 = cs.getD i 0 +
          (Mass * (1 - wtW) * (1 - cmf) / nM) /
            ((4 * piQ / 3) * ((density.getD (i + 1) 0 + density.getD i 0) / 2))) ∧
      (0 < nW →
        cs.getD (nC + nM) 0 = cs.getD (nC + nM - 1) 0 +
          (Mass * wtW / nW) / ((4 * piQ / 3) * density.getD (nC + nM) 0)) ∧
      (∀ i, nC + nM ≤ i → i + 1 < nC + nM + nW →
        cs.getD (i + 1) 0 = cs.getD i 0 +
          (Mass * wtW / nW) /
            ((4 * piQ / 3) * ((density.getD (i + 1) 0 + density.getD i 0) / 2))) := by
  have hif1 : ¬ (nC = 0 ∨ nM = 0) := by omega
  have hif2 : ¬ (density.length < nC + nM + nW) := by omega
  set v := 1 / (4 * piQ / 3) with hv
  set mCoreQ := Mass * (1 - wtW) * cmf / (nC : ℚ) with hmCq
  set mMantQ := Mass * (1 - wtW) * (1 - cmf) / (nM : ℚ) with hmMq
  set mWatQ := Mass * wtW / (nW : ℚ) with hmWq
  set dCore := density.take nC with hdC
  have hlCd : dCore.length = nC := by rw [hdC, List.length_take]; omega
  set d0 := dCore.headD 0 with hd0
  set dTl := dCore.tail with hdTl
  have hdcons : dCore = d0 :: dTl := by
    rw [hd0, hdTl]
    cases hx : dCore with
    | nil => rw [hx] at hlCd; simp at hlCd; omega
    | cons a l => simp
  have hlTl : dTl.length = nC - 1 := by rw [hdTl, List.length_tail, hlCd]
  set coreC := (0 : ℚ) :: cubesFrom (mCoreQ * v) 0 d0 dTl with hcoreC
  have hlC : coreC.length = nC := by
    rw [hcoreC]
    simp only [List.length_cons, cubesFrom_length, hlTl]
    omega
  set dMant := (density.drop nC).take nM with hdM
  have hlMd : dMant.length = nM := by
    rw [hdM, List.length_take, List.length_drop]; omega
  set mantC := bandCubes (mMantQ * v) (coreC.getD (nC - 1) 0) dMant with hmantC
  have hlM : mantC.length = nM := by rw [hmantC, bandCubes_length, hlMd]
  set dWat := (density.drop (nC + nM)).take nW with hdW
  have hlWd : dWat.length = nW := by
    rw [hdW, List.length_take, List.length_drop]; omega
  set watC := (if 0 < nW then
    bandCubes (mWatQ * v) ((coreC ++ mantC).getD (nC + nM - 1) 0) dWat
    else []) with hwatC
  have hlW : watC.length = nW := by
    rw [hwatC]
    by_cases hw : 0 < nW
    · rw [if_pos hw, bandCubes_length, hlWd]
    · rw [if_neg hw]; simp; omega
  have hcs : get_radius_cubed piQ Mass wtW cmf density nM nC nW =
      some (coreC ++ mantC ++ watC) := by
    simp only [get_radius_cubed, if_neg hif1, if_neg hif2]
  obtain ⟨dm0, dmr, hdmc⟩ : ∃ a l, dMant = a :: l := by
    cases hx : dMant with
    | nil => rw [hx] at hlMd; simp at hlMd; omega
    | cons a l => exact ⟨a, l, rfl⟩
  have hlmr : dmr.length = nM - 1 := by
    have := hlMd
    rw [hdmc] at this
    simp at this
    omega
  -- position bridges into the three bands
  have hcsA : ∀ j, j < nC → (coreC ++ mantC ++ watC).getD j 0 = coreC.getD j 0 := by
    intro j hj
    rw [getD_append_lt _ _ _ (by rw [List.length_append, hlC, hlM]; omega),
      getD_append_lt _ _ _ (by rw [hlC]; omega)]
  have hcsB : ∀ j, j < nM →
      (coreC ++ mantC ++ watC).getD (nC + j) 0 = mantC.getD j 0 := by
    intro j hj
    rw [getD_append_lt _ _ _ (by rw [List.length_append, hlC, hlM]; omega),
      getD_append_ge _ _ _ (by rw [hlC]; omega), hlC]
    congr 1
    omega
  have hcsC : ∀ j, j < nW →
      (coreC ++ mantC ++ watC).getD (nC + nM + j) 0 = watC.getD j 0 := by
    intro j hj
    rw [getD_append_ge _ _ _ (by rw [List.length_append, hlC, hlM]; omega),
      List.length_append, hlC, hlM]
    congr 1
    omega
  -- density bridges
  have hgetCore : ∀ j, j < nC → (d0 :: dTl).getD j 0 = density.getD j 0 := by
    intro j hj
    rw [← hdcons, hdC, getD_take_lt _ _ _ hj]
  have hgetMant : ∀ j, j < nM → dMant.getD j 0 = density.getD (nC + j) 0 := by
    intro j hj
    rw [hdM, getD_take_lt _ _ _ hj, getD_drop_add]
  have hgetWat : ∀ j, j < nW → dWat.getD j 0 = density.getD (nC + nM + j) 0 := by
    intro j hj
    rw [hdW, getD_take_lt _ _ _ hj, getD_drop_add]
  refine ⟨coreC ++ mantC ++ watC, hcs, ?_, ?_, ?_, ?_, ?_, ?_, ?_⟩
  · simp only [List.length_append, hlC, hlM, hlW]
  · rw [hcsA 0 hC, hcoreC]
    rfl
  · -- core recurrence
    intro i hi
    rw [hcsA (i + 1) hi, hcsA i (by omega), hcoreC,
      cubes_consec (mCoreQ * v) 0 d0 dTl i (by omega),
      hgetCore (i + 1) hi, hgetCore i (by omega), hv, mulInvDiv]
  · -- first mantle layer
    have e0 : nC + 0 = nC := by omega
    have hB := hcsB 0 hM
    rw [e0] at hB
    rw [hB, hcsA (nC - 1) (by omega), hmantC, hdmc, bandCubes_cons]
    have hg := hgetMant 0 hM
    rw [e0] at hg
    rw [hdmc] at hg
    simp only [List.getD_cons_zero] at hg
    simp only [List.getD_cons_zero, hg, hv, mulInvDiv]
  · -- mantle interior
    intro i hiC hi
    obtain ⟨j, rfl⟩ : ∃ j, i = nC + j := ⟨i - nC, by omega⟩
    have hj1 : j + 1 < nM := by omega
    have e1 : nC + j + 1 = nC + (j + 1) := by omega
    rw [e1, hcsB (j + 1) hj1, hcsB j (by omega)]
    have hrec := cubes_consec (mMantQ * v)
      (coreC.getD (nC - 1) 0 + mMantQ * v / dm0) dm0 dmr j (by omega)
    rw [hmantC, hdmc, bandCubes_cons, hrec]
    have hg1 := hgetMant (j + 1) hj1
    have hg2 := hgetMant j (by omega)
    rw [hdmc] at hg1 hg2
    rw [hg1, hg2]
    simp only [hv, mulInvDiv]
  · -- first water layer
    intro hw
    obtain ⟨dw0, dwr, hdwc⟩ : ∃ a l, dWat = a :: l := by
      cases hx : dWat with
      | nil => rw [hx] at hlWd; simp at hlWd; omega
      | cons a l => exact ⟨a, l, rfl⟩
    have e0 : nC + nM + 0 = nC + nM := by omega
    have hB := hcsC 0 hw
    rw [e0] at hB
    have hprev : (coreC ++ mantC ++ watC).getD (nC + nM - 1) 0 =
        (coreC ++ mantC).getD (nC + nM - 1) 0 :=
      getD_append_lt _ _ _ (by rw [List.length_append, hlC, hlM]; omega)
    rw [hB, hprev, hwatC, if_pos hw, hdwc, bandCubes_cons]
    have hg := hgetWat 0 hw
    rw [e0] at hg
    rw [hdwc] at hg
    simp only [List.getD_cons_zero] at hg
    simp only [List.getD_cons_zero, hg, hv, mulInvDiv]
  · -- water interior
    intro i hiC hi
    have hw : 0 < nW := by omega
    obtain ⟨dw0, dwr, hdwc⟩ : ∃ a l, dWat = a :: l := by
      cases hx : dWat with
      | nil => rw [hx] at hlWd; simp at hlWd; omega
      | cons a l => exact ⟨a, l, rfl⟩
    have hlwr : dwr.length = nW - 1 := by
      have := hlWd
      rw [hdwc] at this
      simp at this
      omega
    obtain ⟨j, rfl⟩ : ∃ j, i = nC + nM + j := ⟨i - (nC + nM), by omega⟩
    have hj1 : j + 1 < nW := by omega
    have e1 : nC + nM + j + 1 = nC + nM + (j + 1) := by omega
    rw [e1, hcsC (j + 1) hj1, hcsC j (by omega)]
    have hrec := cubes_consec (mWatQ * v)
      ((coreC ++ mantC).getD (nC + nM - 1) 0 + mWatQ * v / dw0) dw0 dwr j (by omega)
    rw [hwatC, if_pos hw, hdwc, bandCubes_cons, hrec]
    have hg1 := hgetWat (j + 1) hj1
    have hg2 := hgetWat j (by omega)
    rw [hdwc] at hg1 hg2
    rw [hg1, hg2]
    simp only [hv, mulInvDiv]

theorem c9_witness :
    ∃ cs, get_radius_cubed 3 8 0 (1 / 2) [1, 1] 1 1 0 = some cs ∧ cs.getD 0 0 = 0 := by
  obtain ⟨cs, h1, _, h3, _⟩ :=
    c9_radius_recurrence 3 8 0 (1 / 2) [1, 1] 1 1 0 (by decide) (by decide) (by decide)
  exact ⟨cs, h1, h3⟩

/-- C8 counterexample: in a configuration without a water band,
get_temperature seeds the mantle adiabat integration with 0, not with
the empirical pressure-dependent gradient; with an integrator oracle
that returns its seed, an exponential model 1 + x and potential
temperature 1600 K, the mantle layer comes out at exactly 1600 K, while
seeding with the empirical gradient at the surface boundary pressure
(100 bar) would give a different temperature. -/
theorem c8_counterexample :
    get_temperature (fun _ y0 xs => xs.map (fun _ => y0)) (fun _ _ _ _ => 0)
        (fun x => 1 + x) (fun _ _ => some ([1], [1])) (fun _ _ => some 1)
        (fun _ _ => some 1) (fun _ _ => some (1, 1)) (fun _ _ => []) (fun _ _ => [])
        [1, 2] [0, 0] [300, 300] [200, 100] 1600 300 1 1 0 = some [1600, 1600] ∧
    (1 + startingGradFormula (100 / 10 / 1000)) * 1600 ≠ (1600 : ℚ) := by
  constructor
  · norm_num [get_temperature, alphaJumpFix, alphaFixAux, patchCoreVals]
  · norm_num [startingGradFormula]

/-- C8 (amended): under the odeint contract, the mantle band of the
temperature profile ends (at its outermost layer) at
expQ(seed) * mantle_potential_temperature where the seed of the mantle
adiabat integration is the empirical gradient startingGradFormula at the
water-mantle boundary pressure when a water band is present, and 0 when
there is none. -/
theorem c8_mantle_seed (ode : OdeFn) (splineFit : SplineFn) (expQ : ℚ → ℚ)
    (mantleVals : List ℚ → List ℚ → Option (List ℚ × List ℚ))
    (coreAlphaG coreCpG : Grid) (liqFeTemp : ℚ → ℚ → Option (ℚ × ℚ))
    (waterCpFn waterAlphaFn : List ℚ → List ℚ → List ℚ)
    (radii gravity temperature pressure : List ℚ)
    (mantle_pot water_pot : ℚ) (nM nC nW : ℕ) (ts : List ℚ)
    (hode : OdeContract ode)
    (h : get_temperature ode splineFit expQ mantleVals coreAlphaG coreCpG liqFeTemp
      waterCpFn waterAlphaFn radii gravity temperature pressure mantle_pot water_pot
      nM nC nW = some ts) :
    ∃ tc tm rest, ts = tc ++ tm ++ rest ∧
      tc.length = min nC radii.length ∧
      tm.length = min nM (radii.length - nC) ∧
      tm ≠ [] ∧
      tm.getLast? = some (expQ (if 0 < nW then
          startingGradFormula ((pressure.drop (nC + nM)).headD 0 / 10 / 1000)
        else 0) * mantle_pot) := by
  have tmLast : ∀ (f : ℚ → ℚ → ℚ) (seed : ℚ) (xs : List ℚ), xs ≠ [] →
      ((ode f seed xs.reverse).map (fun i => expQ i * mantle_pot)).reverse.getLast? =
        some (expQ seed * mantle_pot) := by
    intro f seed xs hxs
    have hx : xs.reverse ≠ [] := by simpa [List.reverse_eq_nil_iff] using hxs
    rw [List.getLast?_reverse, List.head?_map, (hode f seed xs.reverse).2 hx]
    rfl
  have tmLen : ∀ (f : ℚ → ℚ → ℚ) (seed pot : ℚ) (xs : List ℚ),
      ((ode f seed xs.reverse).map (fun i => expQ i * pot)).reverse.length = xs.length := by
    intro f seed pot xs
    rw [List.length_reverse, List.length_map, (hode f seed xs.reverse).1,
      List.length_reverse]
  simp only [get_temperature] at h
  split at h
  · exact Option.noConfusion h
  · split at h
    · exact Option.noConfusion h
    · split at h
      · -- water branch
        split at h
        · exact Option.noConfusion h
        · split at h
          · exact Option.noConfusion h
          · split at h
            · exact Option.noConfusion h
            · split at h
              · exact Option.noConfusion h
              · split at h
                · exact Option.noConfusion h
                · cases h
                  rename_i v1 rsurf hrs v2 am ham hw v3 aw haw hne v4 amant hamant
                    v5 pwmb hpw v6 tm0 htm0
                  push_neg at hne
                  have hdm := hne.2.1
                  refine ⟨_, _, _, rfl, ?_, ?_, ?_, ?_⟩
                  · rw [tmLen]
                    simp [List.length_take, List.length_map]
                  · rw [tmLen]
                    simp [List.length_take, List.length_drop, List.length_map]
                  · exact List.length_pos.1 (by rw [tmLen]; exact List.length_pos.2 hdm)
                  · have hpd : (pressure.drop (nC + nM)).headD 0 = pwmb := by
                      rw [List.headD_eq_head?_getD, hpw]
                      rfl
                    rw [if_pos hw, hpd]
                    exact tmLast _ _ _ hdm
      · -- no-water branch
        split at h
        · exact Option.noConfusion h
        · split at h
          · exact Option.noConfusion h
          · split at h
            · exact Option.noConfusion h
            · split at h
              · exact Option.noConfusion h
              · cases h
                rename_i v1 rsurf hrs v2 am ham hw v3 amant hamant hne v4 cv hcv
                  v5 tm0 htm0
                push_neg at hne
                have hdm := hne.1
                refine ⟨_, _, ([] : List ℚ), (List.append_nil _).symm, ?_, ?_, ?_, ?_⟩
                · rw [tmLen]
                  simp [List.length_take, List.length_map]
                · rw [tmLen]
                  simp [List.length_take, List.length_drop, List.length_map]
                · exact List.length_pos.1 (by rw [tmLen]; exact List.length_pos.2 hdm)
                · rw [if_neg hw]
                  exact tmLast _ _ _ hdm

theorem c8_witness :
    ∃ tc tm rest, ([1600, 1600] : List ℚ) = tc ++ tm ++ rest ∧
      tm.getLast? = some ((1 + (if 0 < (0 : ℕ) then
        startingGradFormula ((([200, 100] : List ℚ).drop (1 + 1)).headD 0 / 10 / 1000)
        else 0)) * 1600) := by
  have hode : OdeContract (fun _ y0 xs => xs.map (fun _ => y0)) := by
    intro f y0 xs
    refine ⟨by simp, ?_⟩
    intro hxs
    cases xs with
    | nil => exact absurd rfl hxs
    | cons a l => rfl
  obtain ⟨tc, tm, rest, h1, _, _, _, h5⟩ :=
    c8_mantle_seed (fun _ y0 xs => xs.map (fun _ => y0)) (fun _ _ _ _ => 0)
      (fun x => 1 + x) (fun _ _ => some ([1], [1])) (fun _ _ => some 1)
      (fun _ _ => some 1) (fun _ _ => some (1, 1)) (fun _ _ => []) (fun _ _ => [])
      [1, 2] [0, 0] [300, 300] [200, 100] 1600 300 1 1 0 [1600, 1600] hode
      (by norm_num [get_temperature, alphaJumpFix, alphaFixAux, patchCoreVals])
  exact ⟨tc, tm, rest, h1, h5⟩

end ExoPlex
